import Mathlib

/-!
# DaemonWayans: the ticking HTTP health check of `main.go`

A shallow embedding of `config`, `config.init` and `run` from `main.go`,
followed by the properties of the poll loop and of its per-tick comparisons.

Conventions of the embedding
* Go `int` and `time.Duration` are `Int` (no arithmetic is done on them that
  could overflow); instants of the clock are `Nat` nanoseconds since `run`
  entered its loop.
* `*config` is passed as the value it points to and handed back by `init`.
* The packages used by `main.go` (`flag`, `net/http`, `time`, `context`, `log`)
  are not part of the repository; what `run` needs from them is either a
  parameter (`FlagParser`, `World`) or a small definition following their
  documented behaviour (`Header.Get`, `Tick`, `select`).
* A line written with `log.Printf` is recorded as the formatted message; the
  date and time that the standard logger puts in front of it is left out.
-/

namespace DaemonWayans

/-! ## Data model -/

/-- The `config` struct of `main.go`. -/
structure config where
  contentType : String
  server : String
  statusCode : Int
  tick : Int
  url : String
  userAgent : String
  deriving DecidableEq, Repr

/-- The zero value `config{}` that `main` allocates. -/
def config.zero : config :=
  { contentType := "", server := "", statusCode := 0, tick := 0, url := "", userAgent := "" }

/-- The `defaultTick` constant: 60 seconds in nanoseconds. -/
def defaultTick : Int := 60 * 1000000000

/-- An `http.Header`: a map from canonical header names to their values. -/
abbrev Header := List (String × List String)

/-- The part of an `http.Response` that `run` reads. -/
structure Response where
  StatusCode : Int
  Header : Header
  deriving DecidableEq, Repr

/-! ## `net/http` header lookup -/

/-- The canonical form of a header name made of letters, digits and hyphens:
the first letter and every letter after a hyphen in upper case, the others in
lower case (`textproto.CanonicalMIMEHeaderKey`). -/
def canonicalChars : Bool → List Char → List Char
  | _, [] => []
  | up, ch :: rest =>
    (if up then ch.toUpper else ch.toLower) :: canonicalChars (ch == '-') rest

/-- The function `textproto.CanonicalMIMEHeaderKey` on such names. -/
def CanonicalMIMEHeaderKey (s : String) : String :=
  String.mk (canonicalChars true s.data)

/-- The method `Header.Get`: the first value stored under the canonical form of
`key`, and the empty string when there is none. -/
def Header.Get (h : Header) (key : String) : String :=
  match h.lookup (CanonicalMIMEHeaderKey key) with
  | none => ""
  | some [] => ""
  | some (v :: _) => v

/-! ## The comparisons of one tick (`main.go` lines 106 to 120) -/

/-- The text `fmt` produces for `%d` applied to an `int`. -/
def fmtInt (n : Int) : String := toString n

/-- The message of line 107. -/
def statusLine (got : Int) : String :=
  "Them status codes don't match, fam. Got: " ++ fmtInt got ++ "\n"

/-- The message of line 111. -/
def serverLine (got : String) : String :=
  "Them server headers don't match, fam. Got: " ++ got ++ "\n"

/-- The message of line 115. -/
def contentTypeLine (got : String) : String :=
  "Them content-type headers don't match, fam. Got: " ++ got ++ "\n"

/-- The message of line 119. -/
def userAgentLine (got : String) : String :=
  "Them user-agent headers don't match, fam. Got: " ++ got ++ "\n"

/-- The four `if` statements that follow a successful `http.Get`, in source
order; the result is the list of messages handed to `log.Printf`. -/
def evaluate (c : config) (resp : Response) : List String :=
  (if resp.StatusCode ≠ c.statusCode then [statusLine resp.StatusCode] else []) ++
  ((let s := resp.Header.Get "server"
    if s ≠ c.server then [serverLine s] else []) ++
  ((let ct := resp.Header.Get "content-type"
    if ct ≠ c.contentType then [contentTypeLine ct] else []) ++
  (let ua := resp.Header.Get "user-agent"
   if ua ≠ c.userAgent then [userAgentLine ua] else [])))

/-! ## Fields, observations and the report the spec describes -/

/-- The four compared fields. -/
inductive Field where
  | status
  | server
  | contentType
  | userAgent
  deriving DecidableEq, Repr

/-- The fields in the order `run` compares them. -/
def Field.all : List Field := [.status, .server, .contentType, .userAgent]

/-- The three compared headers. -/
inductive HeaderField where
  | server
  | contentType
  | userAgent
  deriving DecidableEq, Repr

/-- The key `run` passes to `Header.Get` for each header. -/
def HeaderField.key : HeaderField → String
  | .server => "server"
  | .contentType => "content-type"
  | .userAgent => "user-agent"

/-- The field a header is. -/
def HeaderField.toField : HeaderField → Field
  | .server => .server
  | .contentType => .contentType
  | .userAgent => .userAgent

/-- The expected value of a header in the configuration. -/
def HeaderField.expected (c : config) : HeaderField → String
  | .server => c.server
  | .contentType => c.contentType
  | .userAgent => c.userAgent

/-- The first value a response carries for a header, `none` when it carries
none. -/
def carried (h : Header) (key : String) : Option String :=
  (h.lookup (CanonicalMIMEHeaderKey key)).bind List.head?

/-- The Observation of the spec: the values `run` reads from one response. -/
structure Observation where
  status : Int
  server : String
  contentType : String
  userAgent : String
  deriving DecidableEq, Repr

/-- The Observation `run` builds from a response (the expressions compared at
lines 106, 110, 114 and 118). -/
def observe (resp : Response) : Observation :=
  { status := resp.StatusCode
    server := resp.Header.Get "server"
    contentType := resp.Header.Get "content-type"
    userAgent := resp.Header.Get "user-agent" }

/-- The field differs between an Observation and the Expectation, under
integer equality for the status and string equality for the headers. -/
def differs (c : config) (o : Observation) : Field → Bool
  | .status => decide (o.status ≠ c.statusCode)
  | .server => decide (o.server ≠ c.server)
  | .contentType => decide (o.contentType ≠ c.contentType)
  | .userAgent => decide (o.userAgent ≠ c.userAgent)

/-- The observed value of a field as it is printed: the status in decimal, a
header as the observed string. -/
def observedText (o : Observation) : Field → String
  | .status => fmtInt o.status
  | .server => o.server
  | .contentType => o.contentType
  | .userAgent => o.userAgent

/-- The message of a field with the text `got` in the place of the verb. -/
def fieldLine : Field → String → String
  | .status, got => "Them status codes don't match, fam. Got: " ++ got ++ "\n"
  | .server, got => serverLine got
  | .contentType, got => contentTypeLine got
  | .userAgent, got => userAgentLine got

/-- Some line of `lines` is a message of field `f`. -/
def emitsFor (f : Field) (lines : List String) : Prop :=
  ∃ l ∈ lines, ∃ got, l = fieldLine f got

/-- The mismatch report in the spec's words: one line for every field that
does not match, naming the field and the observed value. -/
def report (c : config) (o : Observation) : List String :=
  (Field.all.filter (differs c o)).map (fun f => fieldLine f (observedText o f))

/-! ## `config.init` (`main.go` lines 32 to 56) -/

/-- The values the six flag variables hold once `Parse` has returned. -/
structure FlagValues where
  contentType : String
  server : String
  statusCode : Int
  tick : Int
  url : String
  userAgent : String
  deriving DecidableEq, Repr

/-- The defaults given when the flags are defined (lines 36 to 41). -/
def flagDefaults : FlagValues :=
  { contentType := "", server := "", statusCode := 200, tick := defaultTick, url := "", userAgent := "" }

/-- What a call of `flags.Parse` does: it returns `nil` with the flag variables
set, it returns an error, or (error handling `ExitOnError`) it ends the
process. -/
inductive Parsed where
  | ok (v : FlagValues)
  | err (e : String)
  | exit (code : Nat)
  deriving DecidableEq, Repr

/-- The behaviour of `Parse` of the flag package on the flag set of `init`,
given the defaults and the arguments after the program name (environment and
configuration file included). The package is not part of the repository. -/
abbrev FlagParser := FlagValues → List String → Parsed

/-- How a call of `config.init` ends. -/
inductive InitResult where
  | returned (c : config) (err : Option String)
  | exited (code : Nat)
  | panicked
  deriving DecidableEq, Repr

/-- The method `config.init`: `args[0]` names the flag set (an empty `args`
panics), `args[1:]` is parsed, an error of `Parse` is returned with the config
untouched, otherwise the six values are stored and `nil` is returned. -/
def config.init (parse : FlagParser) (c : config) (args : List String) : InitResult :=
  match args with
  | [] => .panicked
  | _ :: rest =>
    match parse flagDefaults rest with
    | .exit code => .exited code
    | .err e => .returned c (some e)
    | .ok v =>
      .returned
        { contentType := v.contentType
          server := v.server
          statusCode := v.statusCode
          tick := v.tick
          url := v.url
          userAgent := v.userAgent }
        none

/-! ## The world around `run` -/

/-- What `run` cannot decide itself: the instant at which `ctx.Done()` is
closed, if ever; what `select` receives when that happens at the very instant
the tick is delivered; by how much the tick of a ticker made at a given instant
is delivered late; whether an `http.Get` called at a given instant on a given
URL never returns (no timeout is set and `ctx` is not handed to it); and, for
one that returns, how long it takes and what it returns. -/
structure World where
  done : Option Nat
  doneFirst : Nat → Bool
  late : Nat → Nat
  hangs : Nat → String → Bool
  get : Nat → String → Nat × Except String Response

/-- The call `time.Tick(d)` made at instant `now`: `nil` (a channel that never
delivers) when `d ≤ 0`, otherwise a channel whose first tick is due `d` later. -/
def Tick (d : Int) (now : Nat) : Option Nat :=
  if d ≤ 0 then none else some (now + d.toNat)

/-- What the `select` of line 97 receives. -/
inductive Selected where
  | done (t : Nat)
  | tick (t : Nat)
  | never
  deriving DecidableEq, Repr

/-- The `select` statement entered at instant `now`, over `ctx.Done()` and a
fresh `time.Tick(d)`: the case that becomes ready first is taken, at the
instant it becomes ready (at once if `ctx.Done()` is closed already); the tick
becomes ready when it is due or `w.late now` later. -/
def select (w : World) (d : Int) (now : Nat) : Selected :=
  match Tick d now, w.done with
  | none, none => .never
  | none, some tc => .done (max now tc)
  | some due, none => .tick (due + w.late now)
  | some due, some tc =>
    if tc < due + w.late now then .done (max now tc)
    else if due + w.late now < tc then .tick (due + w.late now)
    else if w.doneFirst tc then .done tc
    else .tick (due + w.late now)

/-! ## `run` (`main.go` lines 92 to 123) -/

/-- The record of one pass through the tick case in which `http.Get` returned:
when it was called and on what, when it returned and what, and the messages
logged after it (the comparisons and the logging take no time on the clock). -/
structure TickRecord where
  start : Nat
  url : String
  finish : Nat
  result : Except String Response
  lines : List String

/-- How far `run` got. -/
inductive Outcome where
  | returned (err : Option String) (t : Nat)
  | blocked
  | hung (t : Nat) (url : String)
  | running
  | exited (code : Nat)
  | panicked
  deriving DecidableEq, Repr

/-- The `for` loop of `run`, entered at instant `now`, for at most `fuel`
passes. `blocked` is a `select` that can never proceed; `hung t url` is an
`http.Get` called at `t` on `url` that never returns; `running` is a loop that
is still going after `fuel` passes. -/
def loop (w : World) (c : config) : Nat → Nat → List TickRecord × Outcome
  | 0, _ => ([], .running)
  | fuel + 1, now =>
    match select w c.tick now with
    | .done t => ([], .returned none t)
    | .never => ([], .blocked)
    | .tick t =>
      if w.hangs t c.url then ([], .hung t c.url)
      else
        match w.get t c.url with
        | (dur, .error e) =>
          ([{ start := t, url := c.url, finish := t + dur, result := .error e, lines := [] }],
            .returned (some e) (t + dur))
        | (dur, .ok resp) =>
          let rest := loop w c fuel (t + dur)
          ({ start := t, url := c.url, finish := t + dur, result := .ok resp,
             lines := evaluate c resp } :: rest.1, rest.2)

/-- The function `run`: `c.init(os.Args)` with its result dropped (line 93),
then the loop. `c` is what the pointer given to `run` points to.
`log.SetOutput(out)` only chooses where the messages go. -/
def run (parse : FlagParser) (w : World) (c : config) (args : List String) (fuel : Nat) :
    List TickRecord × Outcome :=
  match c.init parse args with
  | .panicked => ([], .panicked)
  | .exited code => ([], .exited code)
  | .returned c1 _ => loop w c1 fuel 0

/-- The messages logged during a run, in order. -/
def logged (trace : List TickRecord) : List String :=
  trace.flatMap (fun r => r.lines)

/-- The messages that follow a call of `http.Get`: none after an error, the
comparisons of the tick after a response. -/
def linesAfter (c : config) : Except String Response → List String
  | .error _ => []
  | .ok resp => evaluate c resp

/-! ## Sample inputs -/

/-- The Expectation of scenarios A and B. -/
def scenarioExpectation : config :=
  { contentType := "text/html", server := "nginx", statusCode := 200,
    tick := 10, url := "http://localhost/", userAgent := "" }

/-- A response with status 200, server `nginx` and content type `text/html`. -/
def scenarioA : Response :=
  { StatusCode := 200, Header := [("Server", ["nginx"]), ("Content-Type", ["text/html"])] }

/-- The same response with status 404. -/
def scenarioB : Response :=
  { StatusCode := 404, Header := [("Server", ["nginx"]), ("Content-Type", ["text/html"])] }

/-- A response whose server header is spelled with a capital letter. -/
def scenarioCase : Response :=
  { StatusCode := 200, Header := [("Server", ["Nginx"]), ("Content-Type", ["text/html"])] }

/-- The Expectation of scenario C: server `Apache`, the other headers blank. -/
def scenarioApache : config :=
  { contentType := "", server := "Apache", statusCode := 200,
    tick := 10, url := "http://localhost/", userAgent := "" }

/-- A response that carries no header at all. -/
def scenarioC : Response :=
  { StatusCode := 200, Header := [] }

/-- The command line of the samples: it sets the values of
`scenarioExpectation` (the interval is 10 nanoseconds, the status keeps its
default 200). -/
def sampleArgs : List String :=
  ["daemonwayans", "-url", "http://localhost/", "-tick", "10ns", "-server", "nginx",
    "-content_type", "text/html"]

/-- The command line of `sampleArgs` with an interval of zero. -/
def zeroTickArgs : List String :=
  ["daemonwayans", "-url", "http://localhost/", "-tick", "0s", "-server", "nginx",
    "-content_type", "text/html"]

/-- What `Parse` does on the two sample command lines and on an empty one, in
an empty environment: the flags given are set and the others keep their
defaults. On any other command line this sample ends the process. -/
def sampleParse : FlagParser := fun defaults rest =>
  if rest = sampleArgs.tail then
    .ok { defaults with url := "http://localhost/", tick := 10, server := "nginx",
                        contentType := "text/html" }
  else if rest = zeroTickArgs.tail then
    .ok { defaults with url := "http://localhost/", tick := 0, server := "nginx",
                        contentType := "text/html" }
  else if rest = [] then .ok defaults
  else .exit 2

/-- A world cancelled at instant 25 in which every request takes 3 and gets
`scenarioB`. -/
def worldCancelled : World :=
  { done := some 25
    doneFirst := fun _ => true
    late := fun _ => 0
    hangs := fun _ _ => false
    get := fun _ _ => (3, .ok scenarioB) }

/-- A world cancelled at instant 5 in which every request would succeed. -/
def worldQuiet : World :=
  { done := some 5
    doneFirst := fun _ => true
    late := fun _ => 0
    hangs := fun _ _ => false
    get := fun _ _ => (3, .ok scenarioA) }

/-- The configuration `init` makes of `zeroTickArgs`. -/
def zeroTickExpectation : config :=
  { contentType := "text/html", server := "nginx", statusCode := 200,
    tick := 0, url := "http://localhost/", userAgent := "" }

/-- The first record of `worldFailing` and `worldCancelled` under
`scenarioExpectation`. -/
def recordFirst : TickRecord :=
  { start := 10, url := "http://localhost/", finish := 13, result := .ok scenarioB,
    lines := [fieldLine .status "404"] }

/-- The second record of `worldCancelled` under `scenarioExpectation`. -/
def recordSecond : TickRecord :=
  { start := 23, url := "http://localhost/", finish := 26, result := .ok scenarioB,
    lines := [fieldLine .status "404"] }

theorem fieldLine_inj (f g : Field) (v w : String) :
    fieldLine f v = fieldLine g w ↔ f = g ∧ v = w := by
  constructor
  · intro h
    have hd := congrArg String.data h
    cases f <;> cases g <;>
      simp [fieldLine, serverLine, contentTypeLine, userAgentLine, String.data_append] at hd <;>
      exact ⟨rfl, String.ext hd⟩
  · rintro ⟨rfl, rfl⟩
    rfl

theorem statusLine_eq (n : Int) : statusLine n = fieldLine .status (fmtInt n) := rfl

theorem evaluate_eq_report (c : config) (resp : Response) :
    evaluate c resp = report c (observe resp) := by
  simp only [evaluate, report, Field.all, observe, differs, List.filter, statusLine_eq]
  by_cases h1 : resp.StatusCode = c.statusCode <;>
  by_cases h2 : resp.Header.Get "server" = c.server <;>
  by_cases h3 : resp.Header.Get "content-type" = c.contentType <;>
  by_cases h4 : resp.Header.Get "user-agent" = c.userAgent <;>
  simp [h1, h2, h3, h4, fieldLine, observedText]

theorem Get_eq_carried (h : Header) (key : String) :
    h.Get key = (carried h key).getD "" := by
  unfold Header.Get carried
  cases h.lookup (CanonicalMIMEHeaderKey key) with
  | none => rfl
  | some vs => cases vs <;> rfl

theorem Field.all_nodup : Field.all.Nodup := by decide

theorem mem_report (c : config) (o : Observation) (f : Field) (got : String) :
    fieldLine f got ∈ report c o ↔ differs c o f = true ∧ got = observedText o f := by
  simp only [report, List.mem_map, List.mem_filter]
  constructor
  · rintro ⟨g, ⟨_, hg⟩, heq⟩
    obtain ⟨rfl, rfl⟩ := (fieldLine_inj g f _ _).1 heq
    exact ⟨hg, rfl⟩
  · rintro ⟨hd, rfl⟩
    exact ⟨f, ⟨by cases f <;> simp [Field.all], hd⟩, rfl⟩

theorem emitsFor_report (c : config) (o : Observation) (f : Field) :
    emitsFor f (report c o) ↔ differs c o f = true := by
  constructor
  · rintro ⟨l, hl, got, rfl⟩
    exact ((mem_report c o f got).1 hl).1
  · intro h
    exact ⟨_, (mem_report c o f _).2 ⟨h, rfl⟩, _, rfl⟩

/-! ## Lemmas on `select` and on one pass of the loop -/

theorem select_tick {w : World} {d : Int} {now t : Nat} (h : select w d now = .tick t) :
    0 < d ∧ t = now + d.toNat + w.late now ∧
      ∀ tc, w.done = some tc → t ≤ tc ∧ (t = tc → w.doneFirst tc = false) := by
  unfold select Tick at h
  by_cases hd : d ≤ 0
  · rw [if_pos hd] at h
    cases hw : w.done <;> rw [hw] at h <;> simp at h
  · rw [if_neg hd] at h
    refine ⟨not_le.1 hd, ?_⟩
    cases hw : w.done with
    | none =>
      rw [hw] at h
      simp only [Selected.tick.injEq] at h
      exact ⟨h.symm, fun tc htc => by simp at htc⟩
    | some tc =>
      rw [hw] at h
      simp only at h
      split_ifs at h with h1 h2 h3
      · simp only [Selected.tick.injEq] at h
        refine ⟨h.symm, fun tc2 htc => ?_⟩
        simp only [Option.some.injEq] at htc
        subst htc
        subst h
        exact ⟨le_of_lt h2, fun e => absurd e (ne_of_lt h2)⟩
      · simp only [Selected.tick.injEq] at h
        refine ⟨h.symm, fun tc2 htc => ?_⟩
        simp only [Option.some.injEq] at htc
        subst htc
        subst h
        have heq : now + d.toNat + w.late now = tc :=
          le_antisymm (not_lt.1 h1) (not_lt.1 h2)
        exact ⟨le_of_eq heq, fun _ => by simpa using h3⟩

theorem select_done {w : World} {d : Int} {now t : Nat} (h : select w d now = .done t) :
    ∃ tc, w.done = some tc ∧ tc ≤ t ∧ now ≤ t := by
  unfold select at h
  cases hT : Tick d now <;> cases hw : w.done <;> rw [hT, hw] at h <;> simp only at h
  · simp at h
  · rename_i tc
    simp only [Selected.done.injEq] at h
    exact ⟨tc, rfl, by omega, by omega⟩
  · simp at h
  · rename_i tt tc
    have htt : now ≤ tt := by
      unfold Tick at hT
      split_ifs at hT
      simp only [Option.some.injEq] at hT
      omega
    split_ifs at h with h1 h2 h3
    · simp only [Selected.done.injEq] at h
      exact ⟨tc, rfl, by omega, by omega⟩
    · simp only [Selected.done.injEq] at h
      exact ⟨tc, rfl, by omega, by omega⟩

theorem select_nonpos (w : World) {d : Int} (now : Nat) (hd : d ≤ 0) :
    select w d now =
      match w.done with
      | none => .never
      | some tc => .done (max now tc) := by
  unfold select Tick
  rw [if_pos hd]
  cases w.done <;> rfl

theorem loop_zero (w : World) (c : config) (now : Nat) :
    loop w c 0 now = ([], .running) := rfl

theorem loop_done {w : World} {c : config} (fuel : Nat) {now t : Nat}
    (h : select w c.tick now = .done t) :
    loop w c (fuel + 1) now = ([], .returned none t) := by
  simp only [loop, h]

theorem loop_never {w : World} {c : config} (fuel : Nat) {now : Nat}
    (h : select w c.tick now = .never) :
    loop w c (fuel + 1) now = ([], .blocked) := by
  simp only [loop, h]

theorem loop_hung {w : World} {c : config} (fuel : Nat) {now t : Nat}
    (h : select w c.tick now = .tick t) (hh : w.hangs t c.url = true) :
    loop w c (fuel + 1) now = ([], .hung t c.url) := by
  simp only [loop, h, hh, if_true]

theorem loop_failed {w : World} {c : config} (fuel : Nat) {now t dur : Nat} {e : String}
    (h : select w c.tick now = .tick t) (hh : w.hangs t c.url = false)
    (hg : w.get t c.url = (dur, .error e)) :
    loop w c (fuel + 1) now =
      ([{ start := t, url := c.url, finish := t + dur, result := .error e, lines := [] }],
        .returned (some e) (t + dur)) := by
  simp [loop, h, hh, hg]

theorem loop_ok {w : World} {c : config} (fuel : Nat) {now t dur : Nat} {resp : Response}
    (h : select w c.tick now = .tick t) (hh : w.hangs t c.url = false)
    (hg : w.get t c.url = (dur, .ok resp)) :
    loop w c (fuel + 1) now =
      ({ start := t, url := c.url, finish := t + dur, result := .ok resp,
         lines := evaluate c resp } :: (loop w c fuel (t + dur)).1,
        (loop w c fuel (t + dur)).2) := by
  simp [loop, h, hh, hg]

/-! ## Lemmas on the whole loop -/

/-- Every record of the loop is one call of `http.Get` on the configured URL,
made one interval after the pass began, followed by the messages of that
tick. -/
theorem loop_records (w : World) (c : config) :
    ∀ (fuel now : Nat) (r : TickRecord), r ∈ (loop w c fuel now).1 →
      r.url = c.url ∧ w.get r.start c.url = (r.finish - r.start, r.result) ∧
      r.start ≤ r.finish ∧ r.lines = linesAfter c r.result ∧
      0 < c.tick ∧ now + c.tick.toNat ≤ r.start ∧
      ∀ tc, w.done = some tc → r.start ≤ tc ∧ (r.start = tc → w.doneFirst tc = false) := by
  intro fuel
  induction fuel with
  | zero =>
    intro now r hr
    simp [loop_zero] at hr
  | succ fuel ih =>
    intro now r hr
    cases hs : select w c.tick now with
    | done t => rw [loop_done fuel hs] at hr; simp at hr
    | never => rw [loop_never fuel hs] at hr; simp at hr
    | tick t =>
      obtain ⟨hd, ht, hcan⟩ := select_tick hs
      by_cases hh : w.hangs t c.url = true
      · rw [loop_hung fuel hs hh] at hr
        simp at hr
      replace hh : w.hangs t c.url = false := by simpa using hh
      rcases hg : w.get t c.url with ⟨dur, e | resp⟩
      · rw [loop_failed fuel hs hh hg] at hr
        simp only [List.mem_singleton] at hr
        subst hr
        exact ⟨rfl, by rw [hg, Nat.add_sub_cancel_left], Nat.le_add_right _ _, rfl, hd,
          by show now + c.tick.toNat ≤ t; omega, hcan⟩
      · rw [loop_ok fuel hs hh hg] at hr
        simp only [List.mem_cons] at hr
        rcases hr with rfl | hr
        · exact ⟨rfl, by rw [hg, Nat.add_sub_cancel_left], Nat.le_add_right _ _, rfl, hd,
            by show now + c.tick.toNat ≤ t; omega, hcan⟩
        · obtain ⟨h1, h2, h3, h4, h5, h6, h7⟩ := ih (t + dur) r hr
          exact ⟨h1, h2, h3, h4, h5, by omega, h7⟩

/-- The first record of the loop starts one interval after the loop began. -/
theorem loop_head (w : World) (c : config) (fuel now : Nat) (r : TickRecord)
    (h : (loop w c fuel now).1[0]? = some r) :
    r.start = now + c.tick.toNat + w.late now := by
  cases fuel with
  | zero => simp [loop_zero] at h
  | succ fuel =>
    cases hs : select w c.tick now with
    | done t => rw [loop_done fuel hs] at h; simp at h
    | never => rw [loop_never fuel hs] at h; simp at h
    | tick t =>
      obtain ⟨_, ht, _⟩ := select_tick hs
      by_cases hh : w.hangs t c.url = true
      · rw [loop_hung fuel hs hh] at h
        simp at h
      replace hh : w.hangs t c.url = false := by simpa using hh
      rcases hg : w.get t c.url with ⟨dur, e | resp⟩
      · rw [loop_failed fuel hs hh hg] at h
        simp only [List.getElem?_cons_zero, Option.some.injEq] at h
        subst h
        exact ht
      · rw [loop_ok fuel hs hh hg] at h
        simp only [List.getElem?_cons_zero, Option.some.injEq] at h
        subst h
        exact ht

/-- The record with index `i` starts at least `i + 1` intervals after the loop
began. -/
theorem loop_start_bound (w : World) (c : config) :
    ∀ (fuel now i : Nat) (r : TickRecord), (loop w c fuel now).1[i]? = some r →
      now + (i + 1) * c.tick.toNat ≤ r.start := by
  intro fuel
  induction fuel with
  | zero =>
    intro now i r h
    simp [loop_zero] at h
  | succ fuel ih =>
    intro now i r h
    cases i with
    | zero =>
      have := loop_head w c (fuel + 1) now r h
      omega
    | succ i =>
      cases hs : select w c.tick now with
      | done t => rw [loop_done fuel hs] at h; simp at h
      | never => rw [loop_never fuel hs] at h; simp at h
      | tick t =>
        obtain ⟨_, ht, _⟩ := select_tick hs
        by_cases hh : w.hangs t c.url = true
        · rw [loop_hung fuel hs hh] at h
          simp at h
        replace hh : w.hangs t c.url = false := by simpa using hh
        rcases hg : w.get t c.url with ⟨dur, e | resp⟩
        · rw [loop_failed fuel hs hh hg] at h
          simp at h
        · rw [loop_ok fuel hs hh hg] at h
          simp only [List.getElem?_cons_succ] at h
          have h2 := ih (t + dur) i r h
          have h3 : (i + 1 + 1) * c.tick.toNat = (i + 1) * c.tick.toNat + c.tick.toNat :=
            Nat.succ_mul _ _
          omega

/-- Consecutive records: the later one starts one interval after the earlier
one finished. -/
theorem loop_consecutive (w : World) (c : config) :
    ∀ (fuel now i : Nat) (r r2 : TickRecord), (loop w c fuel now).1[i]? = some r →
      (loop w c fuel now).1[i + 1]? = some r2 →
      r2.start = r.finish + c.tick.toNat + w.late r.finish := by
  intro fuel
  induction fuel with
  | zero =>
    intro now i r r2 h
    simp [loop_zero] at h
  | succ fuel ih =>
    intro now i r r2 h h2
    cases hs : select w c.tick now with
    | done t => rw [loop_done fuel hs] at h; simp at h
    | never => rw [loop_never fuel hs] at h; simp at h
    | tick t =>
      by_cases hh : w.hangs t c.url = true
      · rw [loop_hung fuel hs hh] at h2
        simp at h2
      replace hh : w.hangs t c.url = false := by simpa using hh
      rcases hg : w.get t c.url with ⟨dur, e | resp⟩
      · rw [loop_failed fuel hs hh hg] at h2
        simp at h2
      · rw [loop_ok fuel hs hh hg] at h h2
        simp only [List.getElem?_cons_succ] at h2
        cases i with
        | zero =>
          simp only [List.getElem?_cons_zero, Option.some.injEq] at h
          subst h
          exact loop_head w c fuel (t + dur) r2 h2
        | succ i =>
          simp only [List.getElem?_cons_succ] at h
          exact ih (t + dur) i r r2 h h2

/-- When the loop returns, every tick has finished and as many intervals have
passed as there are records. -/
theorem loop_return_time (w : World) (c : config) :
    ∀ (fuel now : Nat) (err : Option String) (t : Nat),
      (loop w c fuel now).2 = .returned err t →
      now + (loop w c fuel now).1.length * c.tick.toNat ≤ t ∧
      ∀ r ∈ (loop w c fuel now).1, r.finish ≤ t := by
  intro fuel
  induction fuel with
  | zero =>
    intro now err t h
    simp [loop_zero] at h
  | succ fuel ih =>
    intro now err t h
    cases hs : select w c.tick now with
    | done t1 =>
      rw [loop_done fuel hs] at h ⊢
      simp only [Outcome.returned.injEq] at h
      obtain ⟨tc, _, _, hn⟩ := select_done hs
      simp only [List.length_nil, Nat.zero_mul, Nat.add_zero, List.not_mem_nil]
      exact ⟨by omega, fun r hr => absurd hr id⟩
    | never => rw [loop_never fuel hs] at h; simp at h
    | tick t1 =>
      obtain ⟨_, ht, _⟩ := select_tick hs
      by_cases hh : w.hangs t1 c.url = true
      · rw [loop_hung fuel hs hh] at h
        simp at h
      replace hh : w.hangs t1 c.url = false := by simpa using hh
      rcases hg : w.get t1 c.url with ⟨dur, e | resp⟩
      · rw [loop_failed fuel hs hh hg] at h ⊢
        simp only [Outcome.returned.injEq] at h
        simp only [List.length_singleton, Nat.one_mul, List.mem_singleton]
        refine ⟨by omega, ?_⟩
        rintro r rfl
        exact le_of_eq h.2
      · rw [loop_ok fuel hs hh hg] at h ⊢
        obtain ⟨h1, h2⟩ := ih (t1 + dur) err t h
        simp only [List.length_cons, List.mem_cons]
        have h3 : ((loop w c fuel (t1 + dur)).1.length + 1) * c.tick.toNat =
            (loop w c fuel (t1 + dur)).1.length * c.tick.toNat + c.tick.toNat :=
          Nat.succ_mul _ _
        refine ⟨by omega, ?_⟩
        rintro r (rfl | hr)
        · show t1 + dur ≤ t
          have := Nat.zero_le ((loop w c fuel (t1 + dur)).1.length * c.tick.toNat)
          omega
        · exact h2 r hr

/-- How a loop ends whose last `http.Get` never returns: the call was made on
the configured URL, one interval or more after the previous tick finished and
after as many intervals as there are ticks, and not after the cancellation. -/
theorem loop_hung_info (w : World) (c : config) :
    ∀ (fuel now t : Nat) (url : String), (loop w c fuel now).2 = .hung t url →
      url = c.url ∧ w.hangs t c.url = true ∧
      now + ((loop w c fuel now).1.length + 1) * c.tick.toNat ≤ t ∧
      (∀ r ∈ (loop w c fuel now).1, r.finish + c.tick.toNat ≤ t) ∧
      (∀ r ∈ (loop w c fuel now).1, ∃ resp, r.result = .ok resp) ∧
      ∀ tc, w.done = some tc → t ≤ tc ∧ (t = tc → w.doneFirst tc = false) := by
  intro fuel
  induction fuel with
  | zero =>
    intro now t url h
    simp [loop_zero] at h
  | succ fuel ih =>
    intro now t url h
    cases hs : select w c.tick now with
    | done t1 => rw [loop_done fuel hs] at h; simp at h
    | never => rw [loop_never fuel hs] at h; simp at h
    | tick t1 =>
      obtain ⟨_, ht, hcan⟩ := select_tick hs
      by_cases hh : w.hangs t1 c.url = true
      · rw [loop_hung fuel hs hh] at h ⊢
        simp only [Outcome.hung.injEq] at h
        obtain ⟨rfl, rfl⟩ := h
        refine ⟨rfl, hh, ?_, ?_, ?_, hcan⟩
        · simp only [List.length_nil, Nat.zero_add, Nat.one_mul]
          omega
        · intro r hr
          simp at hr
        · intro r hr
          simp at hr
      replace hh : w.hangs t1 c.url = false := by simpa using hh
      rcases hg : w.get t1 c.url with ⟨dur, e | resp⟩
      · rw [loop_failed fuel hs hh hg] at h
        simp at h
      · rw [loop_ok fuel hs hh hg] at h ⊢
        obtain ⟨h1, h2, h3, h4, h5, h6⟩ := ih (t1 + dur) t url h
        simp only [List.length_cons, List.mem_cons]
        have h7 : ((loop w c fuel (t1 + dur)).1.length + 1 + 1) * c.tick.toNat =
            ((loop w c fuel (t1 + dur)).1.length + 1) * c.tick.toNat + c.tick.toNat :=
          Nat.succ_mul _ _
        refine ⟨h1, h2, by omega, ?_, ?_, h6⟩
        · rintro r (rfl | hr)
          · show t1 + dur + c.tick.toNat ≤ t
            have h8 : c.tick.toNat ≤
                ((loop w c fuel (t1 + dur)).1.length + 1) * c.tick.toNat :=
              Nat.le_mul_of_pos_left _ (by omega)
            omega
          · exact h4 r hr
        · rintro r (rfl | hr)
          · exact ⟨resp, rfl⟩
          · exact h5 r hr

/-- With an interval that is not positive the loop never calls `http.Get`: it
returns `nil` when `ctx.Done()` is closed and waits for ever otherwise. -/
theorem loop_nonpos (w : World) (c : config) (hd : c.tick ≤ 0) (fuel now : Nat) :
    loop w c (fuel + 1) now =
      ([], match w.done with
           | none => .blocked
           | some tc => .returned none (max now tc)) := by
  have hs := select_nonpos w now hd
  cases hw : w.done with
  | none =>
    rw [hw] at hs
    exact loop_never fuel hs
  | some tc =>
    rw [hw] at hs
    exact loop_done fuel hs

/-! ## Lemmas on `run` -/

theorem run_of_init {parse : FlagParser} {c0 c1 : config} {args : List String}
    {ierr : Option String} (h : c0.init parse args = .returned c1 ierr) (w : World)
    (fuel : Nat) : run parse w c0 args fuel = loop w c1 fuel 0 := by
  simp only [run, h]

/-- C1: for every Expectation and every response, the comparisons of a tick
emit a message of a field exactly when the observed value of that field
differs from the expected one (integer equality for the status, string
equality, which tells upper from lower case, for the headers); no message at
all is emitted exactly when no field differs, as in scenario A. -/
theorem evaluate_emits_iff_differs :
    (∀ (c : config) (resp : Response) (f : Field),
      emitsFor f (evaluate c resp) ↔ differs c (observe resp) f = true) ∧
    (∀ (c : config) (resp : Response),
      (emitsFor .status (evaluate c resp) ↔ resp.StatusCode ≠ c.statusCode) ∧
      (emitsFor .server (evaluate c resp) ↔ resp.Header.Get "server" ≠ c.server) ∧
      (emitsFor .contentType (evaluate c resp) ↔
        resp.Header.Get "content-type" ≠ c.contentType) ∧
      (emitsFor .userAgent (evaluate c resp) ↔ resp.Header.Get "user-agent" ≠ c.userAgent)) ∧
    (∀ (c : config) (resp : Response),
      evaluate c resp = [] ↔ ∀ f, differs c (observe resp) f = false) ∧
    evaluate scenarioExpectation scenarioA = [] ∧
    emitsFor .server (evaluate scenarioExpectation scenarioCase) := by
  have key : ∀ (c : config) (resp : Response) (f : Field),
      emitsFor f (evaluate c resp) ↔ differs c (observe resp) f = true := by
    intro c resp f
    rw [evaluate_eq_report]
    exact emitsFor_report c (observe resp) f
  refine ⟨key, ?_, ?_, by decide, ?_⟩
  · intro c resp
    refine ⟨?_, ?_, ?_, ?_⟩ <;> rw [key] <;> simp [differs, observe]
  · intro c resp
    rw [evaluate_eq_report]
    simp only [report, List.map_eq_nil_iff, List.filter_eq_nil_iff]
    constructor
    · intro h f
      have := h f (by cases f <;> simp [Field.all])
      simpa using this
    · intro h f _
      simp [h f]
  · exact ⟨serverLine "Nginx", by decide, "Nginx", rfl⟩

/-- C2: the comparisons of a tick emit exactly one message per field that does
not match, in the order status, server, content-type, user-agent, and nothing
else; so there are as many messages as differing fields, at most four. A
message determines its field and the observed text it carries (the status in
decimal, a header as observed). In scenario B the only message is the one of
the status, showing 404. -/
theorem evaluate_one_line_per_mismatch :
    (∀ (c : config) (resp : Response),
      evaluate c resp =
        (Field.all.filter (differs c (observe resp))).map
          (fun f => fieldLine f (observedText (observe resp) f)) ∧
      (evaluate c resp).length = (Field.all.filter (differs c (observe resp))).length ∧
      (evaluate c resp).length ≤ 4) ∧
    (∀ (f g : Field) (v w : String), fieldLine f v = fieldLine g w ↔ f = g ∧ v = w) ∧
    (∀ o : Observation, observedText o .status = toString o.status ∧
      observedText o .server = o.server ∧ observedText o .contentType = o.contentType ∧
      observedText o .userAgent = o.userAgent) ∧
    evaluate scenarioExpectation scenarioB = [fieldLine .status "404"] ∧
    fieldLine .status "404" = "Them status codes don't match, fam. Got: 404\n" := by
  refine ⟨?_, fieldLine_inj, fun o => ⟨rfl, rfl, rfl, rfl⟩, by decide, by decide⟩
  intro c resp
  have h := evaluate_eq_report c resp
  refine ⟨h, ?_, ?_⟩
  · rw [h, report, List.length_map]
  · rw [h, report, List.length_map]
    exact le_trans (List.length_filter_le _ _) (by simp [Field.all])

/-- C7: a header the response does not carry is observed as the empty string
and compared like any other value. For each of the three headers: the observed
value is the first carried value, and empty when none is carried; when the
expected value is empty, no message of that header is emitted exactly when the
header is absent or its value is empty; when the expected value is not empty and
the header is absent, exactly one message of that header is emitted and the
observed text in it is empty (scenario C). -/
theorem absent_header_observed_empty :
    (∀ (resp : Response) (h : HeaderField),
      observedText (observe resp) h.toField = (carried resp.Header h.key).getD "") ∧
    (∀ (c : config) (resp : Response) (h : HeaderField), h.expected c = "" →
      (¬ emitsFor h.toField (evaluate c resp) ↔
        carried resp.Header h.key = none ∨ carried resp.Header h.key = some "")) ∧
    (∀ (c : config) (resp : Response) (h : HeaderField), h.expected c ≠ "" →
      carried resp.Header h.key = none →
      (evaluate c resp).count (fieldLine h.toField "") = 1 ∧
      ∀ got, fieldLine h.toField got ∈ evaluate c resp → got = "") ∧
    evaluate scenarioApache scenarioC = [fieldLine .server ""] := by
  have obs : ∀ (resp : Response) (h : HeaderField),
      observedText (observe resp) h.toField = (carried resp.Header h.key).getD "" := by
    intro resp h
    cases h <;> exact Get_eq_carried _ _
  have dif : ∀ (c : config) (resp : Response) (h : HeaderField),
      differs c (observe resp) h.toField = true ↔
        observedText (observe resp) h.toField ≠ h.expected c := by
    intro c resp h
    cases h <;> simp [differs, observedText, HeaderField.toField, HeaderField.expected]
  refine ⟨obs, ?_, ?_, by decide⟩
  · intro c resp h hexp
    rw [evaluate_eq_report, emitsFor_report, dif, obs, hexp]
    cases hc : carried resp.Header h.key <;> simp
  · intro c resp h hexp habs
    have hobs : observedText (observe resp) h.toField = "" := by rw [obs, habs]; rfl
    have hmem : ∀ got, fieldLine h.toField got ∈ evaluate c resp ↔ got = "" := by
      intro got
      rw [evaluate_eq_report, mem_report, dif, hobs]
      constructor
      · exact fun x => x.2
      · intro hg
        exact ⟨fun e => hexp e.symm, hg⟩
    refine ⟨?_, fun got hg => (hmem got).1 hg⟩
    have hnd : (evaluate c resp).Nodup := by
      rw [evaluate_eq_report, report]
      refine List.Nodup.map_on ?_ (Field.all_nodup.filter _)
      intro f _ g _ hfg
      exact ((fieldLine_inj f g _ _).1 hfg).1
    exact List.count_eq_one_of_mem hnd ((hmem "").2 rfl)

/-- Scenario C applied to the header rules of C7: the server header with
expectation `Apache` against a response without headers. -/
theorem absent_header_observed_empty_witness :
    HeaderField.expected scenarioApache .server ≠ "" ∧
    carried scenarioC.Header (HeaderField.key .server) = none ∧
    (evaluate scenarioApache scenarioC).count (fieldLine .server "") = 1 ∧
    HeaderField.expected scenarioApache .userAgent = "" ∧
    (¬ emitsFor .userAgent (evaluate scenarioApache scenarioC) ↔
      carried scenarioC.Header (HeaderField.key .userAgent) = none ∨
      carried scenarioC.Header (HeaderField.key .userAgent) = some "") :=
  ⟨by decide, by decide,
    (absent_header_observed_empty.2.2.1 scenarioApache scenarioC .server
      (by decide) (by decide)).1,
    by decide,
    absent_header_observed_empty.2.1 scenarioApache scenarioC .userAgent (by decide)⟩

/-- C6: with a positive interval `d`, the `i`-th request of `run` (counting
from 0) starts at least `(i + 1) * d` after the loop began, so none starts at
the beginning and the first starts no earlier than `d`; each request starts at
least `d` after the previous one finished, hence at least `d` after the
previous one started and never before the previous one is over; and when `run`
returns after `k` ticks at least `k * d` has passed. A request that never
returns obeys the same bounds: after `k` ticks it starts at or after
`(k + 1) * d` and at least `d` after every earlier one finished. -/
theorem run_timing (parse : FlagParser) (w : World) (c0 c1 : config) (args : List String)
    (ierr : Option String) (fuel : Nat)
    (hinit : c0.init parse args = .returned c1 ierr) (hd : 0 < c1.tick) :
    (∀ i r, (run parse w c0 args fuel).1[i]? = some r →
      0 < r.start ∧ (i + 1) * c1.tick.toNat ≤ r.start ∧ r.start ≤ r.finish) ∧
    (∀ i r r2, (run parse w c0 args fuel).1[i]? = some r →
      (run parse w c0 args fuel).1[i + 1]? = some r2 →
      r.finish + c1.tick.toNat ≤ r2.start ∧ r.start + c1.tick.toNat ≤ r2.start ∧
      r.finish < r2.start) ∧
    (∀ err t, (run parse w c0 args fuel).2 = .returned err t →
      (run parse w c0 args fuel).1.length * c1.tick.toNat ≤ t) ∧
    ((c1.tick.toNat : Int) = c1.tick) ∧
    (∀ t url, (run parse w c0 args fuel).2 = .hung t url →
      ((run parse w c0 args fuel).1.length + 1) * c1.tick.toNat ≤ t ∧
      ∀ r ∈ (run parse w c0 args fuel).1, r.finish + c1.tick.toNat ≤ t) := by
  rw [run_of_init hinit]
  have hpos : 0 < c1.tick.toNat := by omega
  refine ⟨?_, ?_, ?_, by omega, ?_⟩
  rotate_right
  · intro t url h
    obtain ⟨_, _, h3, h4, _⟩ := loop_hung_info w c1 fuel 0 t url h
    exact ⟨by omega, h4⟩
  · intro i r h
    have h1 := loop_start_bound w c1 fuel 0 i r h
    have h2 := (loop_records w c1 fuel 0 r (List.getElem?_mem h)).2.2.1
    have h3 : c1.tick.toNat ≤ (i + 1) * c1.tick.toNat := Nat.le_mul_of_pos_left _ (by omega)
    exact ⟨by omega, by omega, h2⟩
  · intro i r r2 h h2
    have h3 := loop_consecutive w c1 fuel 0 i r r2 h h2
    have h4 := (loop_records w c1 fuel 0 r (List.getElem?_mem h)).2.2.1
    exact ⟨by omega, by omega, by omega⟩
  · intro err t h
    have := (loop_return_time w c1 fuel 0 err t h).1
    omega

/-- In `worldCancelled` with interval 10 the two requests start at 10 and 23. -/
theorem run_timing_witness :
    config.zero.init sampleParse sampleArgs =
      .returned scenarioExpectation none ∧
    (0 : Int) < scenarioExpectation.tick ∧
    (run sampleParse worldCancelled config.zero sampleArgs 26).1[0]? =
      some recordFirst ∧
    (run sampleParse worldCancelled config.zero sampleArgs 26).1[0 + 1]? =
      some recordSecond ∧
    recordFirst.finish + scenarioExpectation.tick.toNat ≤ recordSecond.start ∧
    recordFirst.start + scenarioExpectation.tick.toNat ≤ recordSecond.start ∧
    recordFirst.finish < recordSecond.start :=
  ⟨by decide, by decide, rfl, rfl,
    (run_timing sampleParse worldCancelled config.zero scenarioExpectation
      sampleArgs none 26 (by decide) (by decide)).2.1 0 recordFirst recordSecond rfl rfl⟩

/-- C8: every tick of `run` is evaluated against the one configuration that
`init` left, and the messages of a tick are a function of that configuration
and of the Observation of the tick only: they are the report of the Observation,
so two ticks with equal Observations, in the same run or in runs in different
worlds, log the same messages whatever was observed before. -/
theorem run_evaluation_stateless (parse : FlagParser) (w w2 : World) (c0 c1 : config)
    (args : List String) (ierr : Option String) (fuel fuel2 : Nat)
    (hinit : c0.init parse args = .returned c1 ierr) :
    (∀ r ∈ (run parse w c0 args fuel).1, ∀ resp, r.result = .ok resp →
      r.lines = evaluate c1 resp ∧ r.lines = report c1 (observe resp)) ∧
    (∀ r ∈ (run parse w c0 args fuel).1, ∀ r2 ∈ (run parse w2 c0 args fuel2).1,
      ∀ resp resp2, r.result = .ok resp → r2.result = .ok resp2 →
        observe resp = observe resp2 → r.lines = r2.lines) ∧
    (∀ resp resp2, observe resp = observe resp2 → evaluate c1 resp = evaluate c1 resp2) := by
  have key : ∀ (v : World) (n : Nat), ∀ r ∈ (run parse v c0 args n).1, ∀ resp,
      r.result = .ok resp → r.lines = report c1 (observe resp) := by
    intro v n r hr resp hok
    rw [run_of_init hinit] at hr
    rw [(loop_records v c1 n 0 r hr).2.2.2.1, hok]
    exact evaluate_eq_report c1 resp
  refine ⟨?_, ?_, ?_⟩
  · intro r hr resp hok
    have h := key w fuel r hr resp hok
    exact ⟨by rw [h, evaluate_eq_report], h⟩
  · intro r hr r2 hr2 resp resp2 hok hok2 hobs
    rw [key w fuel r hr resp hok, key w2 fuel2 r2 hr2 resp2 hok2, hobs]
  · intro resp resp2 hobs
    rw [evaluate_eq_report, evaluate_eq_report, hobs]

/-- The two ticks of `worldCancelled` observe the same and log the same. -/
theorem run_evaluation_stateless_witness :
    config.zero.init sampleParse sampleArgs =
      .returned scenarioExpectation none ∧
    recordFirst.result = .ok scenarioB ∧ recordSecond.result = .ok scenarioB ∧
    recordFirst.lines = recordSecond.lines :=
  have h1 : recordFirst ∈
      (run sampleParse worldCancelled config.zero sampleArgs 26).1 := by
    show recordFirst ∈ [recordFirst, recordSecond]
    simp
  have h2 : recordSecond ∈
      (run sampleParse worldCancelled config.zero sampleArgs 26).1 := by
    show recordSecond ∈ [recordFirst, recordSecond]
    simp
  ⟨by decide, rfl, rfl,
    (run_evaluation_stateless sampleParse worldCancelled worldCancelled
      config.zero scenarioExpectation sampleArgs none 26 26 (by decide)).2.1
      recordFirst h1 recordSecond h2 scenarioB scenarioB rfl rfl rfl⟩

/-- C10: when the interval that `init` left is zero or negative, `run` never
calls `http.Get` and never logs a message, whatever the number of passes; from
its first pass on it has returned `nil` at the instant of the cancellation if
there is one, and is blocked for ever in `select` otherwise. -/
theorem run_nonpositive_tick (parse : FlagParser) (w : World) (c0 c1 : config)
    (args : List String) (ierr : Option String) (fuel : Nat)
    (hinit : c0.init parse args = .returned c1 ierr) (hd : c1.tick ≤ 0) :
    (run parse w c0 args fuel).1 = [] ∧
    logged (run parse w c0 args fuel).1 = [] ∧
    (run parse w c0 args (fuel + 1)).2 =
      (match w.done with
       | none => .blocked
       | some tc => .returned none tc) ∧
    Tick c1.tick 0 = none := by
  rw [run_of_init hinit, run_of_init hinit]
  have h1 : (loop w c1 fuel 0).1 = [] := by
    cases fuel with
    | zero => rfl
    | succ f => rw [loop_nonpos w c1 hd f 0]
  refine ⟨h1, by rw [h1]; rfl, ?_, by simp [Tick, hd]⟩
  rw [loop_nonpos w c1 hd fuel 0]
  cases w.done <;> simp

/-- With an interval of zero `run` in `worldQuiet` does nothing until the
cancellation at 5 and then returns `nil`. -/
theorem run_nonpositive_tick_witness :
    config.zero.init sampleParse zeroTickArgs =
      .returned zeroTickExpectation none ∧
    zeroTickExpectation.tick ≤ 0 ∧
    (run sampleParse worldQuiet config.zero zeroTickArgs (7 + 1)).2 =
      .returned none 5 :=
  ⟨by decide, by decide,
    (run_nonpositive_tick sampleParse worldQuiet config.zero
      zeroTickExpectation zeroTickArgs none 7 (by decide) (by decide)).2.2.1⟩

end DaemonWayans
